import Mathlib

/-!
Verification of the replay-buffer layer of `maddpg/replay_buffer.py`
(classes `ReplayBuffer` and `PrioritizedReplayBuffer`).

Modelling conventions:
* numpy float32 scalars are modelled as exact rationals (`ℚ`);
* observation and action rows are opaque payloads (`Obs`, `Act` type
  parameters) since the code never inspects their contents;
* the numpy column arrays become functions `ℕ → _` updated with
  `Function.update`;
* the segment trees come from the module `segment_tree`, which is not part
  of the provided sources, so their observable behaviour (leaf assignment,
  range sum, total min, prefix-sum lookup) is modelled from the spec over
  explicit leaf arrays;
* the runtime float exponentiations `p ** alpha` and `x ** (-beta)` are
  modelled by explicit function parameters (`aPow`, and `f` in the weight
  computation), with the analytic facts they satisfy (positivity,
  antitonicity for a negative exponent) taken as hypotheses where needed;
* `np.random` draws are modelled as explicit random streams, and the
  unbounded resampling loop of `PrioritizedReplayBuffer.sample_idxs` gets
  an explicit fuel bound, returning `none` when fuel runs out;
* a Python `assert`/`ValueError` failure is modelled as an `Option.none`
  result (or as the failure of an explicitly named precondition).
-/

/-- One transition record: the five values passed to `ReplayBuffer.add`. -/
structure Transition (Obs Act : Type) where
  obs : Obs
  act : Act
  reward : ℚ
  next_obs : Obs
  done : Bool
  deriving DecidableEq

/-- State of `ReplayBuffer`: five parallel column arrays of length
`capacity`, the write cursor `idx` and the `full` flag. -/
structure ReplayBuffer (Obs Act : Type) where
  capacity : ℕ
  obses : ℕ → Obs
  actions : ℕ → Act
  rewards : ℕ → ℚ
  next_obses : ℕ → Obs
  not_dones : ℕ → ℚ
  idx : ℕ
  full : Bool

namespace ReplayBuffer

variable {Obs Act : Type}

/-- `ReplayBuffer.__init__`: fresh buffer; `np.empty` leaves arbitrary
initial column contents, so they are passed in as parameters. -/
def mkRB (capacity : ℕ) (o0 : ℕ → Obs) (a0 : ℕ → Act) (r0 nd0 : ℕ → ℚ) :
    ReplayBuffer Obs Act :=
  { capacity := capacity, obses := o0, actions := a0, rewards := r0,
    next_obses := o0, not_dones := nd0, idx := 0, full := false }

/-- `ReplayBuffer.__len__`: `capacity if full else idx`. -/
def size (b : ReplayBuffer Obs Act) : ℕ :=
  if b.full then b.capacity else b.idx

/-- `ReplayBuffer.add`: write the five columns at the cursor, then advance
`idx = (idx+1) % capacity` and set `full` once the cursor wraps to 0. -/
def addT (b : ReplayBuffer Obs Act) (t : Transition Obs Act) :
    ReplayBuffer Obs Act :=
  let i2 := (b.idx + 1) % b.capacity
  { b with
    obses := Function.update b.obses b.idx t.obs
    actions := Function.update b.actions b.idx t.act
    rewards := Function.update b.rewards b.idx t.reward
    next_obses := Function.update b.next_obses b.idx t.next_obs
    not_dones := Function.update b.not_dones b.idx (if t.done then 0 else 1)
    idx := i2
    full := b.full || decide (i2 = 0) }

/-- A sequence of `add` calls, left to right. -/
def addAll (b : ReplayBuffer Obs Act) (ts : List (Transition Obs Act)) :
    ReplayBuffer Obs Act :=
  ts.foldl addT b

/-- `np.sign` on an exact rational. -/
def npSign (q : ℚ) : ℚ :=
  if 0 < q then 1 else if q < 0 then -1 else 0

/-- The accumulator loop of `ReplayBuffer.fetch`, per sampled index `i`:
after `k` iterations returns the pair (accumulated reward, running
`not_dones` product-by-min), exactly as the Python loop computes them
(`rewards += discount**i * not_dones * np.sign(...)` before
`not_dones = np.minimum(...)`). -/
def fetchLoop (b : ReplayBuffer Obs Act) (i : ℕ) (d : ℚ) : ℕ → ℚ × ℚ
  | 0 => (0, 1)
  | k + 1 =>
    let p := fetchLoop b i d k
    (p.1 + d ^ k * p.2 * npSign (b.rewards (i + k)),
     min p.2 (b.not_dones (i + k)))

/-- Row of values `ReplayBuffer.fetch` produces for one index `i`:
observation at `i`, action at `i`, n-step reward, next observation at
`i+n-1`, and the propagated continuation flag. -/
def fetchOne (b : ReplayBuffer Obs Act) (d : ℚ) (n i : ℕ) :
    Obs × Act × ℚ × Obs × ℚ :=
  (b.obses i, b.actions i, (fetchLoop b i d n).1,
   b.next_obses (i + n - 1), (fetchLoop b i d n).2)

/-- Maximum of a list of naturals (`idxs.max()` on a nonempty array). -/
def listMax (l : List ℕ) : ℕ := l.foldr max 0

/-- `ReplayBuffer.fetch`: the leading `assert idxs.max() + n <= len(self)`
is modelled as an `Option` guard; on success the per-index rows. -/
def fetch (b : ReplayBuffer Obs Act) (idxs : List ℕ) (d : ℚ) (n : ℕ) :
    Option (List (Obs × Act × ℚ × Obs × ℚ)) :=
  if listMax idxs + n ≤ size b then some (idxs.map (fetchOne b d n))
  else none

/-- `ReplayBuffer.sample_idxs`: `np.random.randint(0, last_idx, batch)`
with `last_idx = size - (n-1)`; the draw stream `us` supplies one natural
per slot, reduced mod `last_idx`; numpy raises when `last_idx ≤ 0`,
modelled as `none`. -/
def sample_idxs (b : ReplayBuffer Obs Act) (bs n : ℕ) (us : ℕ → ℕ) :
    Option (List ℕ) :=
  if size b - (n - 1) = 0 then none
  else some ((List.range bs).map fun j => us j % (size b - (n - 1)))

/-- `ReplayBuffer.sample_multistep`: asserts `n <= idx or full`, draws
indices, fetches. -/
def sample_multistep (b : ReplayBuffer Obs Act) (bs : ℕ) (d : ℚ) (n : ℕ)
    (us : ℕ → ℕ) : Option (List (Obs × Act × ℚ × Obs × ℚ)) :=
  if n ≤ b.idx ∨ b.full = true then
    match sample_idxs b bs n us with
    | none => none
    | some idxs => fetch b idxs d n
  else none

/-- State-passing form of `fetch` for the frame property: the method
reads the columns and assigns to no field of `self`, so the state
component it returns is the receiver itself. -/
def fetchSt (b : ReplayBuffer Obs Act) (idxs : List ℕ) (d : ℚ) (n : ℕ) :
    Option (List (Obs × Act × ℚ × Obs × ℚ)) × ReplayBuffer Obs Act :=
  (fetch b idxs d n, b)

/-- State-passing form of the uniform `sample_multistep` for the frame
property. -/
def sample_multistepSt (b : ReplayBuffer Obs Act) (bs : ℕ) (d : ℚ)
    (n : ℕ) (us : ℕ → ℕ) :
    Option (List (Obs × Act × ℚ × Obs × ℚ)) × ReplayBuffer Obs Act :=
  (sample_multistep b bs d n us, b)

end ReplayBuffer

/-- State of `PrioritizedReplayBuffer`: the base ring buffer plus the two
segment trees (modelled by their leaf arrays — sum-tree leaves start at 0,
min-tree leaves at the neutral `⊤`, per the spec's sentinel description),
the tree capacity (least power of two ≥ capacity), the running
`max_priority`, and `aPow`, the function `p ↦ p ** alpha` for the fixed
construction-time exponent `alpha ≥ 0`. -/
structure PrioritizedReplayBuffer (Obs Act : Type) extends
    ReplayBuffer Obs Act where
  aPow : ℚ → ℚ
  treeCap : ℕ
  sumLeaves : ℕ → ℚ
  minLeaves : ℕ → WithTop ℚ
  max_priority : ℚ

namespace PrioritizedReplayBuffer

variable {Obs Act : Type}

/-- The `while tree_capacity < capacity: tree_capacity *= 2` loop of
`PrioritizedReplayBuffer.__init__`, with enough fuel to terminate (the
accumulator doubles from 1, so `capacity` steps always suffice). -/
def pow2Loop : ℕ → ℕ → ℕ → ℕ
  | _, 0, t => t
  | c, fuel + 1, t => if t < c then pow2Loop c fuel (2 * t) else t

/-- `PrioritizedReplayBuffer.__init__`: fresh base buffer, tree capacity
doubled from 1 until it reaches `capacity` (the least power of two
≥ capacity), empty trees, `max_priority = 1.0`. -/
def mkPRB (capacity : ℕ) (f : ℚ → ℚ) (o0 : ℕ → Obs) (a0 : ℕ → Act)
    (r0 nd0 : ℕ → ℚ) : PrioritizedReplayBuffer Obs Act :=
  { ReplayBuffer.mkRB capacity o0 a0 r0 nd0 with
    aPow := f
    treeCap := pow2Loop capacity capacity 1
    sumLeaves := fun _ => 0
    minLeaves := fun _ => ⊤
    max_priority := 1 }

/-- `len` of the prioritized buffer is the base buffer's size. -/
def size (b : PrioritizedReplayBuffer Obs Act) : ℕ :=
  b.toReplayBuffer.size

/-- `PrioritizedReplayBuffer.add`: first `super().add(...)` (which
advances `self.idx`), then `self.sum_tree[self.idx] = max_priority**alpha`
and likewise for the min tree — note the leaf written is the
post-increment cursor of the base buffer, exactly as in the code. -/
def addT (b : PrioritizedReplayBuffer Obs Act) (t : Transition Obs Act) :
    PrioritizedReplayBuffer Obs Act :=
  let base := b.toReplayBuffer.addT t
  let v := b.aPow b.max_priority
  { b with
    toReplayBuffer := base
    sumLeaves := Function.update b.sumLeaves base.idx v
    minLeaves := Function.update b.minLeaves base.idx (v : WithTop ℚ) }

/-- Modelled from the spec: `SumSegmentTree.sum()` with no arguments (the
module `segment_tree` is not among the provided sources) — the sum of all
tree leaves. -/
def totalSum (b : PrioritizedReplayBuffer Obs Act) : ℚ :=
  ∑ k in Finset.range b.treeCap, b.sumLeaves k

/-- Modelled from the spec: `MinSegmentTree.min()` (module `segment_tree`
not under the provided sources) — the minimum over all tree leaves, `⊤`
standing for the float `inf` sentinel of unwritten leaves. -/
def minTotal (b : PrioritizedReplayBuffer Obs Act) : WithTop ℚ :=
  (Finset.range b.treeCap).inf fun k => b.minLeaves k

/-- Strip the `⊤` sentinel from a `WithTop ℚ` value (total-min is finite
in every state that has been written at least once). -/
def untopQ : WithTop ℚ → ℚ :=
  fun x => WithTop.recTopCoe 0 id x

/-- Modelled from the spec: `SumSegmentTree.sum(0, hi)` as the inclusive
range sum of leaves `0..hi`; `PrioritizedReplayBuffer.sample_idxs` calls
it with `hi = len(self) - n - 1`, so the mass covers the first
`size - n` leaves. -/
def pTotal (b : PrioritizedReplayBuffer Obs Act) (n : ℕ) : ℚ :=
  ∑ k in Finset.range (size b - n), b.sumLeaves k

/-- Modelled from the spec: `SumSegmentTree.find_prefixsum_idx(mass)` —
the smallest leaf index whose cumulative leaf sum exceeds `mass`, clamped
to the last leaf; realized by a left-to-right scan over the `count`
leaves starting at `base`. -/
def findByMassAux (f : ℕ → ℚ) : ℕ → ℕ → ℚ → ℕ
  | base, 0, _ => base
  | base, 1, _ => base
  | base, count + 2, m =>
    if m < f base then base
    else findByMassAux f (base + 1) (count + 1) (m - f base)

/-- Prefix-sum lookup over the whole tree. -/
def findByMass (b : PrioritizedReplayBuffer Obs Act) (m : ℚ) : ℕ :=
  findByMassAux b.sumLeaves 0 b.treeCap m

/-- Inner `while True` loop of `PrioritizedReplayBuffer.sample_idxs` for
stratum `i`: draw `u` from the stream, form
`mass = u * every_range_len + i * every_range_len`, look the mass up, and
accept the index only if `idx + n <= len(self)`; otherwise redraw.  The
code bounds neither the redraws nor the stream, so the model carries
explicit fuel and returns `none` when it (or the stream) runs out. -/
def sampleBand (b : PrioritizedReplayBuffer Obs Act) (n : ℕ) (W : ℚ)
    (i : ℕ) : List ℚ → ℕ → Option (ℕ × List ℚ)
  | _, 0 => none
  | [], _ + 1 => none
  | u :: rest, fuel + 1 =>
    let idx := findByMass b (u * W + (i : ℚ) * W)
    if idx + n ≤ size b then some (idx, rest)
    else sampleBand b n W i rest fuel

/-- Outer `for i in range(batch_size)` loop of `sample_idxs`: one accepted
index per stratum, threading the random stream. -/
def sampleBands (b : PrioritizedReplayBuffer Obs Act) (n : ℕ) (W : ℚ)
    (fuel : ℕ) : ℕ → ℕ → List ℚ → Option (List ℕ)
  | _, 0, _ => some []
  | i, r + 1, s =>
    match sampleBand b n W i s fuel with
    | none => none
    | some (idx, rest) =>
      Option.map (fun l => idx :: l) (sampleBands b n W fuel (i + 1) r rest)

/-- `PrioritizedReplayBuffer.sample_idxs`: stratified sampling with band
width `every_range_len = p_total / batch_size`. -/
def sample_idxsP (b : PrioritizedReplayBuffer Obs Act) (bs n : ℕ)
    (stream : List ℚ) (fuel : ℕ) : Option (List ℕ) :=
  sampleBands b n (pTotal b n / (bs : ℚ)) fuel 0 bs stream

/-- The two asserts opening `PrioritizedReplayBuffer.sample_multistep`:
`n <= self.idx or self.full` and `beta > 0`. -/
def prioritizedPre (b : PrioritizedReplayBuffer Obs Act) (β : ℚ) (n : ℕ) :
    Prop :=
  (n ≤ b.idx ∨ b.full = true) ∧ 0 < β

instance (b : PrioritizedReplayBuffer Obs Act) (β : ℚ) (n : ℕ) :
    Decidable (prioritizedPre b β n) := by
  unfold prioritizedPre; infer_instance

/-- Importance weight for one sampled index, as computed in
`sample_multistep`:
`p_sample = sum_tree[idx] / sum_tree.sum()`,
`p_min = min_tree.min() / sum_tree.sum()`,
`weight = (p_sample * len)**(-beta) / (p_min * len)**(-beta)`, with `f`
standing for the float map `x ↦ x ** (-beta)`. -/
def weightFor (b : PrioritizedReplayBuffer Obs Act) (f : ℚ → ℚ) (idx : ℕ) :
    ℚ :=
  f (b.sumLeaves idx / totalSum b * (size b : ℚ)) /
    f (untopQ (minTotal b) / totalSum b * (size b : ℚ))

/-- `PrioritizedReplayBuffer.sample_multistep`: the two asserts, the
stratified index draw, the fetch, and per-index weights; returns
`(batch rows, weights, idxs)`. -/
def sample_multistepP (b : PrioritizedReplayBuffer Obs Act) (f : ℚ → ℚ)
    (bs : ℕ) (β d : ℚ) (n : ℕ) (stream : List ℚ) (fuel : ℕ) :
    Option (List (Obs × Act × ℚ × Obs × ℚ) × List ℚ × List ℕ) :=
  if prioritizedPre b β n then
    match sample_idxsP b bs n stream fuel with
    | none => none
    | some idxs =>
      match b.toReplayBuffer.fetch idxs d n with
      | none => none
      | some batch => some (batch, idxs.map (weightFor b f), idxs)
  else none

/-- State-passing form of the prioritized `sample_multistep` for the
frame property: the method reads the trees and columns and assigns to no
field of `self`, so the state component it returns is the receiver. -/
def sample_multistepPSt (b : PrioritizedReplayBuffer Obs Act) (f : ℚ → ℚ)
    (bs : ℕ) (β d : ℚ) (n : ℕ) (stream : List ℚ) (fuel : ℕ) :
    Option (List (Obs × Act × ℚ × Obs × ℚ) × List ℚ × List ℕ) ×
      PrioritizedReplayBuffer Obs Act :=
  (sample_multistepP b f bs β d n stream fuel, b)

/-- One priority write of `update_priorities`' loop body:
`sum_tree[idx] = prio**alpha`, `min_tree[idx] = prio**alpha`,
`max_priority = max(max_priority, prio)`. -/
def applyOne (b : PrioritizedReplayBuffer Obs Act) (i : ℕ) (p : ℚ) :
    PrioritizedReplayBuffer Obs Act :=
  { b with
    sumLeaves := Function.update b.sumLeaves i (b.aPow p)
    minLeaves := Function.update b.minLeaves i ((b.aPow p : ℚ) : WithTop ℚ)
    max_priority := max b.max_priority p }

/-- The `for idx, prio in zip(idxs, prios)` loop of `update_priorities`:
each entry is checked (`prio > 0`, `0 <= idx < len(self)`) and applied in
order; a failing check stops the loop, keeping the partial updates — the
Boolean records whether the whole list was processed. -/
def goUpdate (b : PrioritizedReplayBuffer Obs Act) :
    List (ℕ × ℚ) → PrioritizedReplayBuffer Obs Act × Bool
  | [] => (b, true)
  | e :: rest =>
    if 0 < e.2 ∧ e.1 < size b then goUpdate (applyOne b e.1 e.2) rest
    else (b, false)

/-- `PrioritizedReplayBuffer.update_priorities`: the leading
`assert idxs.shape[0] == prios.shape[0]` (checked before any mutation),
then the entry loop. -/
def update_priorities (b : PrioritizedReplayBuffer Obs Act)
    (idxs : List ℕ) (prios : List ℚ) :
    PrioritizedReplayBuffer Obs Act × Bool :=
  if idxs.length = prios.length then goUpdate b (idxs.zip prios)
  else (b, false)

/-- Legal validity check for one `(idx, prio)` entry of
`update_priorities` (`prio > 0` and `0 <= idx < len(self)`); the check
reads only the buffer size, so it is unaffected by the priority writes. -/
def validEntry (b : PrioritizedReplayBuffer Obs Act) (e : ℕ × ℚ) : Bool :=
  decide (0 < e.2) && decide (e.1 < size b)

/-- Application of a list of `(idx, prio)` writes in order, with no
validity checks. -/
def applyList (b : PrioritizedReplayBuffer Obs Act) (l : List (ℕ × ℚ)) :
    PrioritizedReplayBuffer Obs Act :=
  l.foldl (fun b2 e => applyOne b2 e.1 e.2) b

end PrioritizedReplayBuffer

/-- A public mutating call on the prioritized buffer: an `add` or an
`update_priorities`. -/
inductive BufOp (Obs Act : Type) where
  | addOp : Transition Obs Act → BufOp Obs Act
  | upOp : List ℕ → List ℚ → BufOp Obs Act
  deriving DecidableEq

namespace PrioritizedReplayBuffer

variable {Obs Act : Type}

/-- Effect of one public mutating call on the buffer state (for a failing
`update_priorities` this is the state the Python object is left in, with
the partial updates applied). -/
def applyOp (b : PrioritizedReplayBuffer Obs Act) :
    BufOp Obs Act → PrioritizedReplayBuffer Obs Act
  | .addOp t => b.addT t
  | .upOp idxs prios => (update_priorities b idxs prios).1

/-- Effect of a sequence of public mutating calls. -/
def applyOps (b : PrioritizedReplayBuffer Obs Act)
    (ops : List (BufOp Obs Act)) : PrioritizedReplayBuffer Obs Act :=
  ops.foldl applyOp b

/-- Whether every call in the sequence succeeds (no assert fires) when
run in order from `b`. -/
def opsOk (b : PrioritizedReplayBuffer Obs Act) :
    List (BufOp Obs Act) → Bool
  | [] => true
  | .addOp t :: r => opsOk (b.addT t) r
  | .upOp idxs prios :: r =>
    (update_priorities b idxs prios).2 &&
      opsOk (update_priorities b idxs prios).1 r

end PrioritizedReplayBuffer

/-! Concrete states used as witnesses and counterexamples. -/

/-- A fresh capacity-2 prioritized buffer with `alpha = 1` (so
`p ** alpha` is the identity) and zero-initialised columns. -/
def fresh2 : PrioritizedReplayBuffer ℕ ℕ :=
  PrioritizedReplayBuffer.mkPRB 2 id (fun _ => 0) (fun _ => 0)
    (fun _ => 0) (fun _ => 0)

/-- `fresh2` after one `add`: the transition is written at slot 0 and the
cursor advances to 1. -/
def oneAdd : PrioritizedReplayBuffer ℕ ℕ :=
  fresh2.addT ⟨7, 3, 5, 9, false⟩

/-- The spec's n-step scenario: capacity 4, rewards `[+5, -1, 0, +2]`,
all continuation flags 1 (no episode ends). -/
def scenarioBuf : ReplayBuffer ℚ ℚ :=
  ReplayBuffer.addAll
    (ReplayBuffer.mkRB 4 (fun _ => 0) (fun _ => 0) (fun _ => 0) (fun _ => 0))
    [⟨0, 0, 5, 0, false⟩, ⟨0, 0, -1, 0, false⟩,
     ⟨0, 0, 0, 0, false⟩, ⟨0, 0, 2, 0, false⟩]

/-- A full capacity-2 prioritized buffer with tree leaves 2 and 3 (both
trees in sync), `alpha = 1`. -/
def bW : PrioritizedReplayBuffer ℕ ℕ :=
  { toReplayBuffer :=
      { capacity := 2, obses := fun _ => 0, actions := fun _ => 0,
        rewards := fun _ => 0, next_obses := fun _ => 0,
        not_dones := fun _ => 1, idx := 0, full := true }
    aPow := id
    treeCap := 2
    sumLeaves := fun k => if k = 0 then 2 else if k = 1 then 3 else 0
    minLeaves := fun k =>
      if k = 0 then ((2 : ℚ) : WithTop ℚ)
      else if k = 1 then ((3 : ℚ) : WithTop ℚ) else ⊤
    max_priority := 3 }

/-! Claim C1. -/

/-- Claim C1: refuted on the code — `PrioritizedReplayBuffer.add` runs
`super().add(...)` first, which advances `self.idx`, and only then
assigns `self.sum_tree[self.idx]` and `self.min_tree[self.idx]`.  On a
fresh capacity-2 buffer with `alpha = 1`, the first transition is written
at slot 0 (its observation lands there and the cursor moves to 1), yet
the priority `max_priority ** alpha = 1` is written at leaf 1: leaf 0 of
the sum tree keeps its initial 0 and leaf 0 of the min tree keeps the
`inf` sentinel, so the fresh transition does not enter at maximum
priority. -/
theorem c1_add_seeds_wrong_leaf :
    oneAdd.obses 0 = 7 ∧ oneAdd.idx = 1 ∧
    oneAdd.sumLeaves 1 = fresh2.aPow fresh2.max_priority ∧
    oneAdd.minLeaves 1 = ((1 : ℚ) : WithTop ℚ) ∧
    oneAdd.sumLeaves 0 = 0 ∧ oneAdd.minLeaves 0 = ⊤ ∧
    oneAdd.sumLeaves 0 ≠ fresh2.aPow fresh2.max_priority := by
  decide

/-! Claim C2. -/

namespace ReplayBuffer

variable {Obs Act : Type}

/-- The claim-side running continuation factor: the minimum of the
continuation flags over the first `k` steps of the window at `i`,
starting from 1. -/
def windMin (b : ReplayBuffer Obs Act) (i k : ℕ) : ℚ :=
  ((List.range k).map fun j => b.not_dones (i + j)).foldr min 1

theorem foldr_min_shift (a c : ℚ) (l : List ℚ) :
    l.foldr min (min a c) = min a (l.foldr min c) := by
  induction l with
  | nil => rfl
  | cons x xs ih => simp only [List.foldr_cons, ih, min_left_comm]

theorem windMin_succ (b : ReplayBuffer Obs Act) (i k : ℕ) :
    windMin b i (k + 1) = min (windMin b i k) (b.not_dones (i + k)) := by
  unfold windMin
  rw [List.range_succ, List.map_append, List.foldr_append]
  simp only [List.map_cons, List.map_nil, List.foldr_cons, List.foldr_nil]
  rw [foldr_min_shift]
  exact min_comm _ _

theorem fetchLoop_snd (b : ReplayBuffer Obs Act) (i : ℕ) (d : ℚ) :
    ∀ k, (fetchLoop b i d k).2 = windMin b i k := by
  intro k
  induction k with
  | zero => simp [fetchLoop, windMin]
  | succ k ih => rw [fetchLoop, windMin_succ, ← ih]

theorem fetchLoop_fst (b : ReplayBuffer Obs Act) (i : ℕ) (d : ℚ) :
    ∀ k, (fetchLoop b i d k).1 =
      ∑ j in Finset.range k,
        d ^ j * windMin b i j * npSign (b.rewards (i + j)) := by
  intro k
  induction k with
  | zero => simp [fetchLoop]
  | succ k ih =>
    rw [Finset.sum_range_succ, ← ih, fetchLoop, fetchLoop_snd]

end ReplayBuffer

/-- Claim C2: `fetch(idxs, discount, n)` under the guard
`max(idxs) + n <= size()` returns, for each index `i`, the observation
and action stored at `i`, the next observation stored at `i + n - 1`, the
n-step return `sum over k < n of discount^k * notDone_running(k) *
sign(reward[i+k])` where `notDone_running(k)` is the minimum of the
continuation flags over the first `k` window steps (starting at 1, i.e.
updated only after each term is accumulated), and the continuation flag
equal to the minimum over the whole window; on the spec's scenario
(rewards `[+5,-1,0,+2]`, flags 1, discount 1/2, n = 2, index 0) the
return is 1/2. -/
theorem c2_fetch_nstep {Obs Act : Type} (b : ReplayBuffer Obs Act)
    (idxs : List ℕ) (d : ℚ) (n : ℕ)
    (h : ReplayBuffer.listMax idxs + n ≤ b.size) :
    b.fetch idxs d n = some (idxs.map fun i =>
      (b.obses i, b.actions i,
       ∑ k in Finset.range n,
         d ^ k * ReplayBuffer.windMin b i k *
           ReplayBuffer.npSign (b.rewards (i + k)),
       b.next_obses (i + n - 1), ReplayBuffer.windMin b i n)) ∧
    (ReplayBuffer.fetchLoop scenarioBuf 0 (1 / 2) 2).1 = 1 / 2 := by
  constructor
  · unfold ReplayBuffer.fetch
    rw [if_pos h]
    congr 1
    apply List.map_congr_left
    intro i _
    unfold ReplayBuffer.fetchOne
    rw [ReplayBuffer.fetchLoop_fst, ReplayBuffer.fetchLoop_snd]
  · norm_num [ReplayBuffer.fetchLoop, ReplayBuffer.npSign, scenarioBuf,
      ReplayBuffer.addAll, ReplayBuffer.addT, ReplayBuffer.mkRB,
      Function.update]

/-- Witness for C2 at the scenario buffer, index list `[0]`,
discount 1/2, n = 2. -/
theorem c2_fetch_nstep_witness :
    (ReplayBuffer.listMax [0] + 2 ≤ scenarioBuf.size) ∧
    (scenarioBuf.fetch [0] (1 / 2) 2 = some ([0].map fun i =>
      (scenarioBuf.obses i, scenarioBuf.actions i,
       ∑ k in Finset.range 2,
         (1 / 2 : ℚ) ^ k * ReplayBuffer.windMin scenarioBuf i k *
           ReplayBuffer.npSign (scenarioBuf.rewards (i + k)),
       scenarioBuf.next_obses (i + 2 - 1),
       ReplayBuffer.windMin scenarioBuf i 2)) ∧
    (ReplayBuffer.fetchLoop scenarioBuf 0 (1 / 2) 2).1 = 1 / 2) :=
  ⟨by decide, c2_fetch_nstep scenarioBuf [0] (1 / 2) 2 (by decide)⟩

/-! Claim C3. -/

namespace ReplayBuffer

variable {Obs Act : Type}

theorem addAll_append (b : ReplayBuffer Obs Act)
    (ts : List (Transition Obs Act)) (t : Transition Obs Act) :
    addAll b (ts ++ [t]) = addT (addAll b ts) t := by
  simp [addAll, List.foldl_append]

theorem addT_capacity (b : ReplayBuffer Obs Act) (t : Transition Obs Act) :
    (addT b t).capacity = b.capacity := rfl

theorem addAll_capacity (b : ReplayBuffer Obs Act)
    (ts : List (Transition Obs Act)) :
    (addAll b ts).capacity = b.capacity := by
  induction ts generalizing b with
  | nil => rfl
  | cons t ts ih => simpa [addAll] using ih (addT b t)

/-- Cursor and fullness after `k` additions into a fresh buffer:
`idx = k % C` and `full` exactly when `C ≤ k`. -/
theorem afterAdds_cursor (C : ℕ) (hC : 0 < C) (o0 : ℕ → Obs)
    (a0 : ℕ → Act) (r0 nd0 : ℕ → ℚ) (ts : List (Transition Obs Act)) :
    (addAll (mkRB C o0 a0 r0 nd0) ts).idx = ts.length % C ∧
    (addAll (mkRB C o0 a0 r0 nd0) ts).full = decide (C ≤ ts.length) := by
  induction ts using List.reverseRecOn with
  | nil =>
    refine ⟨by simp [addAll, mkRB], ?_⟩
    have : ¬ C ≤ 0 := by omega
    simp [addAll, mkRB, this]
  | append_singleton ts t ih =>
    obtain ⟨hidx, hfull⟩ := ih
    have hcap : (addAll (mkRB C o0 a0 r0 nd0) ts).capacity = C :=
      addAll_capacity _ _
    have hlen : (ts ++ [t]).length = ts.length + 1 := by simp
    rw [addAll_append, hlen]
    constructor
    · show ((addAll (mkRB C o0 a0 r0 nd0) ts).idx + 1) %
          (addAll (mkRB C o0 a0 r0 nd0) ts).capacity = _
      rw [hcap, hidx, Nat.mod_add_mod]
    · show ((addAll (mkRB C o0 a0 r0 nd0) ts).full ||
          decide (((addAll (mkRB C o0 a0 r0 nd0) ts).idx + 1) %
            (addAll (mkRB C o0 a0 r0 nd0) ts).capacity = 0)) = _
      rw [hcap, hidx, hfull, Nat.mod_add_mod]
      by_cases hc : C ≤ ts.length
      · have h1 : C ≤ ts.length + 1 := by omega
        simp [hc, h1]
      · have hlt : ts.length < C := by omega
        simp only [decide_eq_false (show ¬ C ≤ ts.length from hc),
          Bool.false_or]
        apply decide_eq_decide.mpr
        rcases Nat.lt_or_ge (ts.length + 1) C with h2 | h2
        · rw [Nat.mod_eq_of_lt h2]
          omega
        · have heq : ts.length + 1 = C := by omega
          rw [heq, Nat.mod_self]
          simp [heq]

/-- Column contents after `k` additions into a fresh buffer: for every
`m` among the most recent `min k C` additions, slot `m % C` holds the
five fields of transition `m`. -/
theorem afterAdds_content (C : ℕ) (hC : 0 < C) (o0 : ℕ → Obs)
    (a0 : ℕ → Act) (r0 nd0 : ℕ → ℚ) (ts : List (Transition Obs Act)) :
    ∀ m (hm : m < ts.length), ts.length ≤ m + C →
      ((addAll (mkRB C o0 a0 r0 nd0) ts).obses (m % C) =
          (ts.get ⟨m, hm⟩).obs ∧
       (addAll (mkRB C o0 a0 r0 nd0) ts).actions (m % C) =
          (ts.get ⟨m, hm⟩).act ∧
       (addAll (mkRB C o0 a0 r0 nd0) ts).rewards (m % C) =
          (ts.get ⟨m, hm⟩).reward ∧
       (addAll (mkRB C o0 a0 r0 nd0) ts).next_obses (m % C) =
          (ts.get ⟨m, hm⟩).next_obs ∧
       (addAll (mkRB C o0 a0 r0 nd0) ts).not_dones (m % C) =
          (if (ts.get ⟨m, hm⟩).done then 0 else 1)) := by
  induction ts using List.reverseRecOn with
  | nil => intro m hm; exact absurd hm (by simp)
  | append_singleton ts t ih =>
    intro m hm hrecent
    have hlen : (ts ++ [t]).length = ts.length + 1 := by simp
    have hcap : (addAll (mkRB C o0 a0 r0 nd0) ts).capacity = C :=
      addAll_capacity _ _
    have hidx : (addAll (mkRB C o0 a0 r0 nd0) ts).idx = ts.length % C :=
      (afterAdds_cursor C hC o0 a0 r0 nd0 ts).1
    rw [addAll_append]
    by_cases hmk : m = ts.length
    · have hslot : (addAll (mkRB C o0 a0 r0 nd0) ts).idx = m % C := by
        rw [hidx, hmk]
      have hget : (ts ++ [t]).get ⟨m, hm⟩ = t := by
        subst hmk
        simp
      rw [hget]
      refine ⟨?_, ?_, ?_, ?_, ?_⟩ <;>
        · show Function.update _ (addAll (mkRB C o0 a0 r0 nd0) ts).idx _
              (m % C) = _
          rw [hslot, Function.update_same]
    · have hmlt : m < ts.length := by omega
      have hne : m % C ≠ ts.length % C := by
        intro heq
        have hmod : Nat.ModEq C m ts.length := heq
        have hdvd : C ∣ ts.length - m := (Nat.modEq_iff_dvd' hmlt.le).mp hmod
        have hpos : 0 < ts.length - m := by omega
        have hsmall : ts.length - m < C := by omega
        have := Nat.le_of_dvd hpos hdvd
        omega
      have hget : (ts ++ [t]).get ⟨m, hm⟩ = ts.get ⟨m, hmlt⟩ := by
        simp only [List.get_eq_getElem]
        exact List.getElem_append_left hmlt
      have hrec2 : ts.length ≤ m + C := by omega
      have hold := ih m hmlt hrec2
      rw [hget]
      refine ⟨?_, ?_, ?_, ?_, ?_⟩ <;>
        · show Function.update _ (addAll (mkRB C o0 a0 r0 nd0) ts).idx _
              (m % C) = _
          rw [hidx, Function.update_noteq hne]
          first
            | exact hold.1
            | exact hold.2.1
            | exact hold.2.2.1
            | exact hold.2.2.2.1
            | exact hold.2.2.2.2

end ReplayBuffer

/-- Claim C3: after any sequence of `k` additions into a fresh buffer of
capacity `C > 0`, `size()` is `C` when `full` else the cursor, the cursor
stays below `C` and equals `k % C`, each single `add` advances the cursor
to `(cursor + 1) % C`, and once `k > C` the buffer is full with exactly
the most recent `C` transitions stored, transition `m` (for
`k - C ≤ m < k`) sitting at slot `m % C` in every column — the oldest
entries having been overwritten in cursor order. -/
theorem c3_capacity_invariant {Obs Act : Type} (C : ℕ) (hC : 0 < C)
    (o0 : ℕ → Obs) (a0 : ℕ → Act) (r0 nd0 : ℕ → ℚ)
    (ts : List (Transition Obs Act)) (b : ReplayBuffer Obs Act)
    (hb : b = ReplayBuffer.addAll (ReplayBuffer.mkRB C o0 a0 r0 nd0) ts) :
    b.size = (if b.full then C else b.idx) ∧
    b.idx < C ∧ b.idx = ts.length % C ∧
    (∀ (b2 : ReplayBuffer Obs Act) (t : Transition Obs Act),
      b2.capacity = C → (b2.addT t).idx = (b2.idx + 1) % C) ∧
    (C < ts.length →
      b.size = C ∧
      ∀ m (hm : m < ts.length), ts.length ≤ m + C →
        (b.obses (m % C) = (ts.get ⟨m, hm⟩).obs ∧
         b.actions (m % C) = (ts.get ⟨m, hm⟩).act ∧
         b.rewards (m % C) = (ts.get ⟨m, hm⟩).reward ∧
         b.next_obses (m % C) = (ts.get ⟨m, hm⟩).next_obs ∧
         b.not_dones (m % C) =
           (if (ts.get ⟨m, hm⟩).done then 0 else 1))) := by
  subst hb
  obtain ⟨hidx, hfull⟩ :=
    ReplayBuffer.afterAdds_cursor C hC o0 a0 r0 nd0 ts
  have hcap : (ReplayBuffer.addAll (ReplayBuffer.mkRB C o0 a0 r0 nd0)
      ts).capacity = C := ReplayBuffer.addAll_capacity _ _
  refine ⟨?_, ?_, hidx, ?_, ?_⟩
  · unfold ReplayBuffer.size
    rw [hcap]
  · rw [hidx]; exact Nat.mod_lt _ hC
  · intro b2 t hb2
    show (b2.idx + 1) % b2.capacity = _
    rw [hb2]
  · intro hk
    have hfull2 : (ReplayBuffer.addAll (ReplayBuffer.mkRB C o0 a0 r0 nd0)
        ts).full = true := by
      rw [hfull]; simp; omega
    refine ⟨?_, ReplayBuffer.afterAdds_content C hC o0 a0 r0 nd0 ts⟩
    unfold ReplayBuffer.size
    rw [hfull2, hcap]
    simp

/-- Three transitions to drive a capacity-2 buffer past capacity. -/
def ts3 : List (Transition ℕ ℕ) :=
  [⟨10, 20, 1, 11, false⟩, ⟨12, 21, 2, 13, true⟩, ⟨14, 22, 3, 15, false⟩]

/-- The capacity-2 buffer after the three additions of `ts3`. -/
def rb3 : ReplayBuffer ℕ ℕ :=
  ReplayBuffer.addAll
    (ReplayBuffer.mkRB 2 (fun _ => 0) (fun _ => 0) (fun _ => 0) (fun _ => 0))
    ts3

/-- Witness for C3 at capacity 2 with the three transitions of `ts3`. -/
theorem c3_capacity_invariant_witness :
    (0 < 2) ∧
    (rb3.size = (if rb3.full then 2 else rb3.idx) ∧
     rb3.idx < 2 ∧ rb3.idx = ts3.length % 2 ∧
     (∀ (b2 : ReplayBuffer ℕ ℕ) (t : Transition ℕ ℕ),
       b2.capacity = 2 → (b2.addT t).idx = (b2.idx + 1) % 2) ∧
     (2 < ts3.length →
       rb3.size = 2 ∧
       ∀ m (hm : m < ts3.length), ts3.length ≤ m + 2 →
         (rb3.obses (m % 2) = (ts3.get ⟨m, hm⟩).obs ∧
          rb3.actions (m % 2) = (ts3.get ⟨m, hm⟩).act ∧
          rb3.rewards (m % 2) = (ts3.get ⟨m, hm⟩).reward ∧
          rb3.next_obses (m % 2) = (ts3.get ⟨m, hm⟩).next_obs ∧
          rb3.not_dones (m % 2) =
            (if (ts3.get ⟨m, hm⟩).done then 0 else 1)))) :=
  ⟨by decide,
   c3_capacity_invariant 2 (by decide) (fun _ => 0) (fun _ => 0)
     (fun _ => 0) (fun _ => 0) ts3 rb3 rfl⟩

/-! Claim C4. -/

namespace PrioritizedReplayBuffer

variable {Obs Act : Type}

/-- Any index accepted by the inner resampling loop passed its
`idx + n <= len(self)` check. -/
theorem sampleBand_le (b : PrioritizedReplayBuffer Obs Act) (n : ℕ)
    (W : ℚ) (i : ℕ) :
    ∀ (fuel : ℕ) (s : List ℚ) (idx : ℕ) (rest : List ℚ),
      sampleBand b n W i s fuel = some (idx, rest) → idx + n ≤ size b := by
  intro fuel
  induction fuel with
  | zero => intro s idx rest h; exact absurd h (by simp [sampleBand])
  | succ fuel ih =>
    intro s idx rest h
    cases s with
    | nil => exact absurd h (by simp [sampleBand])
    | cons u s2 =>
      rw [sampleBand] at h
      by_cases hg : findByMass b (u * W + (i : ℚ) * W) + n ≤ size b
      · rw [if_pos hg] at h
        cases h
        exact hg
      · rw [if_neg hg] at h
        exact ih s2 idx rest h

/-- The outer stratum loop returns one accepted index per stratum. -/
theorem sampleBands_spec (b : PrioritizedReplayBuffer Obs Act) (n : ℕ)
    (W : ℚ) (fuel : ℕ) :
    ∀ (r i : ℕ) (s : List ℚ) (l : List ℕ),
      sampleBands b n W fuel i r s = some l →
        l.length = r ∧ ∀ idx ∈ l, idx + n ≤ size b := by
  intro r
  induction r with
  | zero =>
    intro i s l h
    simp [sampleBands] at h
    subst h
    simp
  | succ r ih =>
    intro i s l h
    rw [sampleBands] at h
    cases hband : sampleBand b n W i s fuel with
    | none => rw [hband] at h; exact absurd h (by simp)
    | some pr =>
      obtain ⟨idx0, rest0⟩ := pr
      rw [hband] at h
      dsimp only at h
      cases hrec : sampleBands b n W fuel (i + 1) r rest0 with
      | none => rw [hrec] at h; exact absurd h (by simp)
      | some l2 =>
        rw [hrec] at h
        simp only [Option.map_some', Option.some_inj] at h
        obtain ⟨hlen, hall⟩ := ih (i + 1) rest0 l2 hrec
        subst h
        refine ⟨by simp [hlen], ?_⟩
        intro idx hidx
        rcases List.mem_cons.mp hidx with hhead | htail
        · subst hhead
          exact sampleBand_le b n W i fuel s idx rest0 hband
        · exact hall idx htail

end PrioritizedReplayBuffer

/-- Claim C4: whenever `sample_idxs(batchSize, n)` returns (the retry loop
of every stratum terminates), it returns exactly `batchSize` indices, each
satisfying `idx + n <= size()`; and the stratum-`i` draw
`mass = u * W + i * W` for a uniform `u ∈ [0, 1)` and band width `W > 0`
always lies in the band `[i*W, (i+1)*W)`. -/
theorem c4_sample_idxs {Obs Act : Type} (b : PrioritizedReplayBuffer Obs Act)
    (bs n fuel : ℕ) (stream : List ℚ) (l : List ℕ) (u W : ℚ) (i : ℕ)
    (hsome : PrioritizedReplayBuffer.sample_idxsP b bs n stream fuel = some l)
    (hu0 : 0 ≤ u) (hu1 : u < 1) (hW : 0 < W) :
    l.length = bs ∧
    (∀ idx ∈ l, idx + n ≤ PrioritizedReplayBuffer.size b) ∧
    (i : ℚ) * W ≤ u * W + (i : ℚ) * W ∧
    u * W + (i : ℚ) * W < ((i : ℚ) + 1) * W := by
  obtain ⟨hlen, hall⟩ :=
    PrioritizedReplayBuffer.sampleBands_spec b n
      (PrioritizedReplayBuffer.pTotal b n / (bs : ℚ)) fuel bs 0 stream l hsome
  refine ⟨hlen, hall, ?_, ?_⟩
  · nlinarith [mul_nonneg hu0 hW.le]
  · nlinarith [mul_lt_mul_of_pos_right hu1 hW]

/-- Witness for C4 on the full capacity-2 buffer `bW` with batch size 1,
n = 1, random stream `[1/2]`, band width 1. -/
theorem c4_sample_idxs_witness :
    (PrioritizedReplayBuffer.sample_idxsP bW 1 1 [(1 : ℚ)/2] 1 = some [0]) ∧
    (0 ≤ (1 : ℚ)/2) ∧ ((1 : ℚ)/2 < 1) ∧ (0 < (1 : ℚ)) ∧
    ([0].length = 1 ∧
     (∀ idx ∈ [0], idx + 1 ≤ PrioritizedReplayBuffer.size bW) ∧
     ((0 : ℕ) : ℚ) * 1 ≤ (1 : ℚ)/2 * 1 + ((0 : ℕ) : ℚ) * 1 ∧
     (1 : ℚ)/2 * 1 + ((0 : ℕ) : ℚ) * 1 < (((0 : ℕ) : ℚ) + 1) * 1) :=
  ⟨by norm_num [PrioritizedReplayBuffer.sample_idxsP,
      PrioritizedReplayBuffer.sampleBands, PrioritizedReplayBuffer.sampleBand,
      PrioritizedReplayBuffer.findByMass, PrioritizedReplayBuffer.findByMassAux,
      PrioritizedReplayBuffer.pTotal, PrioritizedReplayBuffer.size,
      ReplayBuffer.size, bW, Finset.sum_range_succ],
   by norm_num, by norm_num, by norm_num,
   c4_sample_idxs bW 1 1 1 [(1 : ℚ)/2] [0] ((1 : ℚ)/2) 1 0
     (by norm_num [PrioritizedReplayBuffer.sample_idxsP,
        PrioritizedReplayBuffer.sampleBands, PrioritizedReplayBuffer.sampleBand,
        PrioritizedReplayBuffer.findByMass, PrioritizedReplayBuffer.findByMassAux,
        PrioritizedReplayBuffer.pTotal, PrioritizedReplayBuffer.size,
        ReplayBuffer.size, bW, Finset.sum_range_succ])
     (by norm_num) (by norm_num) (by norm_num)⟩

/-! Claim C5. -/

/-- Claim C5: with `f` the float map `x ↦ x ** (-beta)` for some
`beta > 0` (so `f` is positive and antitone on positive arguments), in
any buffer state whose two trees agree on written leaves (unwritten
sum-tree leaves are 0 and min-tree leaves `⊤`, the reachable-state
invariant), with positive total mass, nonempty buffer, finite positive
total minimum `m` and a sampled leaf of positive mass, the
importance-sampling weight of `sample_multistep` equals
`f(p_sample * size) / f(p_min * size)` with
`p_sample = sumLeaf(idx)/totalSum()` and `p_min = totalMin()/totalSum()`,
and it is positive and at most 1. -/
theorem c5_is_weight {Obs Act : Type} (b : PrioritizedReplayBuffer Obs Act)
    (f : ℚ → ℚ) (idx : ℕ) (m : ℚ)
    (hf1 : ∀ x y : ℚ, 0 < x → x ≤ y → f y ≤ f x)
    (hf2 : ∀ x : ℚ, 0 < x → 0 < f x)
    (hm : PrioritizedReplayBuffer.minTotal b = (m : WithTop ℚ))
    (hinv : ∀ j, j < b.treeCap →
      b.minLeaves j = ((b.sumLeaves j : ℚ) : WithTop ℚ) ∨ b.sumLeaves j = 0)
    (hS : 0 < PrioritizedReplayBuffer.totalSum b)
    (hN : 0 < PrioritizedReplayBuffer.size b)
    (hm0 : 0 < m) (hp : 0 < b.sumLeaves idx) (hidx : idx < b.treeCap) :
    PrioritizedReplayBuffer.weightFor b f idx =
      f (b.sumLeaves idx / PrioritizedReplayBuffer.totalSum b *
          (PrioritizedReplayBuffer.size b : ℚ)) /
        f (m / PrioritizedReplayBuffer.totalSum b *
          (PrioritizedReplayBuffer.size b : ℚ)) ∧
    0 < PrioritizedReplayBuffer.weightFor b f idx ∧
    PrioritizedReplayBuffer.weightFor b f idx ≤ 1 := by
  have hmle : (m : WithTop ℚ) ≤ b.minLeaves idx := by
    rw [← hm]
    exact Finset.inf_le (Finset.mem_range.mpr hidx)
  have hLeaf : m ≤ b.sumLeaves idx := by
    rcases hinv idx hidx with hEq | h0
    · rw [hEq] at hmle
      exact_mod_cast hmle
    · exact absurd h0 (ne_of_gt hp)
  have hNQ : (0 : ℚ) < (PrioritizedReplayBuffer.size b : ℚ) := by
    exact_mod_cast hN
  have ha : 0 < m / PrioritizedReplayBuffer.totalSum b *
      (PrioritizedReplayBuffer.size b : ℚ) :=
    mul_pos (div_pos hm0 hS) hNQ
  have hc : 0 < b.sumLeaves idx / PrioritizedReplayBuffer.totalSum b *
      (PrioritizedReplayBuffer.size b : ℚ) :=
    mul_pos (div_pos hp hS) hNQ
  have hac : m / PrioritizedReplayBuffer.totalSum b *
      (PrioritizedReplayBuffer.size b : ℚ) ≤
      b.sumLeaves idx / PrioritizedReplayBuffer.totalSum b *
        (PrioritizedReplayBuffer.size b : ℚ) := by
    gcongr
  have hw : PrioritizedReplayBuffer.weightFor b f idx =
      f (b.sumLeaves idx / PrioritizedReplayBuffer.totalSum b *
          (PrioritizedReplayBuffer.size b : ℚ)) /
        f (m / PrioritizedReplayBuffer.totalSum b *
          (PrioritizedReplayBuffer.size b : ℚ)) := by
    unfold PrioritizedReplayBuffer.weightFor
    rw [hm]
    rfl
  refine ⟨hw, ?_, ?_⟩
  · rw [hw]
    exact div_pos (hf2 _ hc) (hf2 _ ha)
  · rw [hw]
    rw [div_le_one (hf2 _ ha)]
    exact hf1 _ _ ha hac

/-- Witness for C5 on the buffer `bW` (leaves 2 and 3, total mass 5,
size 2) with `beta = 1`, i.e. `f x = 1 / x`. -/
theorem c5_is_weight_witness :
    (∀ x y : ℚ, 0 < x → x ≤ y → y⁻¹ ≤ x⁻¹) ∧
    (∀ x : ℚ, 0 < x → 0 < x⁻¹) ∧
    (PrioritizedReplayBuffer.minTotal bW = ((2 : ℚ) : WithTop ℚ)) ∧
    (0 < PrioritizedReplayBuffer.totalSum bW) ∧
    (0 < PrioritizedReplayBuffer.size bW) ∧
    (0 < bW.sumLeaves 0) ∧ (0 < bW.treeCap) ∧
    (PrioritizedReplayBuffer.weightFor bW (fun x => x⁻¹) 0 =
      (bW.sumLeaves 0 / PrioritizedReplayBuffer.totalSum bW *
          (PrioritizedReplayBuffer.size bW : ℚ))⁻¹ /
        ((2 : ℚ) / PrioritizedReplayBuffer.totalSum bW *
          (PrioritizedReplayBuffer.size bW : ℚ))⁻¹ ∧
     0 < PrioritizedReplayBuffer.weightFor bW (fun x => x⁻¹) 0 ∧
     PrioritizedReplayBuffer.weightFor bW (fun x => x⁻¹) 0 ≤ 1) :=
  ⟨fun x y hx hxy => inv_anti₀ hx hxy,
   fun x hx => inv_pos.mpr hx,
   by decide,
   by norm_num [PrioritizedReplayBuffer.totalSum, bW, Finset.sum_range_succ],
   by decide, by decide, by decide,
   c5_is_weight bW (fun x => x⁻¹) 0 2
     (fun x y hx hxy => inv_anti₀ hx hxy)
     (fun x hx => inv_pos.mpr hx)
     (by decide)
     (by decide)
     (by norm_num [PrioritizedReplayBuffer.totalSum, bW, Finset.sum_range_succ])
     (by decide) (by norm_num) (by decide) (by decide)⟩

/-! Claim C6. -/

namespace ReplayBuffer

variable {Obs Act : Type}

theorem listMax_le (l : List ℕ) (v : ℕ) (h : ∀ x ∈ l, x ≤ v) :
    listMax l ≤ v := by
  induction l with
  | nil => exact Nat.zero_le v
  | cons x xs ih =>
    exact max_le (h x (List.mem_cons_self x xs))
      (ih fun y hy => h y (List.mem_cons_of_mem x hy))

end ReplayBuffer

namespace PrioritizedReplayBuffer

variable {Obs Act : Type}

/-- When `n` exceeds the populated size, no index can satisfy
`idx + n <= len(self)`, so the inner resampling loop never accepts. -/
theorem sampleBand_none (b : PrioritizedReplayBuffer Obs Act) {n : ℕ}
    (hns : size b < n) (W : ℚ) (i : ℕ) :
    ∀ (fuel : ℕ) (s : List ℚ), sampleBand b n W i s fuel = none := by
  intro fuel
  induction fuel with
  | zero => intro s; cases s <;> rfl
  | succ fuel ih =>
    intro s
    cases s with
    | nil => rfl
    | cons u s2 =>
      rw [sampleBand]
      have hno : ¬ (findByMass b (u * W + (i : ℚ) * W) + n ≤ size b) := by
        omega
      rw [if_neg hno]
      exact ih s2

/-- With at least one stratum requested and `n > size()`, the prioritized
`sample_idxs` never returns: the first stratum loops forever (all fuel is
consumed without an accepted index). -/
theorem sample_idxsP_none (b : PrioritizedReplayBuffer Obs Act)
    {bs n : ℕ} (hns : size b < n) (hbs : 1 ≤ bs) (stream : List ℚ)
    (fuel : ℕ) : sample_idxsP b bs n stream fuel = none := by
  unfold sample_idxsP
  cases bs with
  | zero => omega
  | succ r =>
    rw [sampleBands, sampleBand_none b hns _ 0 fuel stream]

end PrioritizedReplayBuffer

/-- Counterexample to claim C6 as stated: on the full capacity-2 buffer
`bW` with `n = 3 > size() = 2` and `beta = 1`, the asserts of the
prioritized `sample_multistep` all pass (`n <= self.idx or self.full`
is satisfied by `full` alone), so the call does not fail; instead its
index loop can never accept (here it burns an entire concrete random
stream and fuel budget without returning). -/
theorem c6_counterexample :
    PrioritizedReplayBuffer.prioritizedPre bW 1 3 ∧
    PrioritizedReplayBuffer.size bW < 3 ∧
    PrioritizedReplayBuffer.sample_idxsP bW 1 3 [(1 : ℚ)/2] 2 = none := by
  refine ⟨⟨Or.inr (by decide), by norm_num⟩, by decide, ?_⟩
  exact PrioritizedReplayBuffer.sample_idxsP_none bW (by decide) (by decide)
    [(1 : ℚ)/2] 2

/-- Claim C6, amended: (a) the uniform `sample_multistep` fails exactly
when `n > size()` — the assert rejects `n > idx` when the buffer is not
full, and `np.random.randint(0, size - n + 1)` raises on an empty range
when it is; (b) the prioritized `sample_multistep`'s asserts pass
whenever the buffer is full, for every `n` (even `n > capacity`); (c) in
that case, with `n > size()`, the call does not fail but retries forever:
for every stream and fuel budget the index loop returns nothing. -/
theorem c6_sample_guards {Obs Act : Type} (b : ReplayBuffer Obs Act)
    (p : PrioritizedReplayBuffer Obs Act) (bs n fuel : ℕ) (d β : ℚ)
    (us : ℕ → ℕ) (stream : List ℚ)
    (hn : 1 ≤ n) (hβ : 0 < β) (hfull : p.full = true) (hbs : 1 ≤ bs)
    (hns : PrioritizedReplayBuffer.size p < n) :
    (ReplayBuffer.sample_multistep b bs d n us = none ↔
      ReplayBuffer.size b < n) ∧
    PrioritizedReplayBuffer.prioritizedPre p β n ∧
    PrioritizedReplayBuffer.sample_idxsP p bs n stream fuel = none := by
  refine ⟨⟨?_, ?_⟩, ⟨Or.inr hfull, hβ⟩,
    PrioritizedReplayBuffer.sample_idxsP_none p hns hbs stream fuel⟩
  · intro hnone
    by_contra hge
    push_neg at hge
    unfold ReplayBuffer.sample_multistep at hnone
    have hguard : n ≤ b.idx ∨ b.full = true := by
      by_cases hfull2 : b.full = true
      · exact Or.inr hfull2
      · left
        have hsz : ReplayBuffer.size b = b.idx := by
          unfold ReplayBuffer.size
          rw [Bool.not_eq_true] at hfull2
          rw [hfull2]
          rfl
        omega
    rw [if_pos hguard] at hnone
    unfold ReplayBuffer.sample_idxs at hnone
    have hlast : ¬ (ReplayBuffer.size b - (n - 1) = 0) := by omega
    rw [if_neg hlast] at hnone
    dsimp only at hnone
    unfold ReplayBuffer.fetch at hnone
    have hfguard : ReplayBuffer.listMax
        ((List.range bs).map fun j => us j % (ReplayBuffer.size b - (n - 1)))
          + n ≤ ReplayBuffer.size b := by
      have hbound : ∀ x ∈ (List.range bs).map
          (fun j => us j % (ReplayBuffer.size b - (n - 1))),
          x ≤ ReplayBuffer.size b - n := by
        intro x hx
        obtain ⟨j, _, hj⟩ := List.mem_map.mp hx
        have hmod : us j % (ReplayBuffer.size b - (n - 1)) <
            ReplayBuffer.size b - (n - 1) := Nat.mod_lt _ (by omega)
        omega
      have := ReplayBuffer.listMax_le _ _ hbound
      omega
    rw [if_pos hfguard] at hnone
    exact absurd hnone (by simp)
  · intro hlt
    unfold ReplayBuffer.sample_multistep
    by_cases hfull2 : b.full = true
    · rw [if_pos (Or.inr hfull2)]
      unfold ReplayBuffer.sample_idxs
      have hlast : ReplayBuffer.size b - (n - 1) = 0 := by omega
      rw [if_pos hlast]
    · have hsz : ReplayBuffer.size b = b.idx := by
        unfold ReplayBuffer.size
        rw [Bool.not_eq_true] at hfull2
        rw [hfull2]
        rfl
      have hno : ¬ (n ≤ b.idx ∨ b.full = true) := by
        push_neg
        refine ⟨by omega, ?_⟩
        rw [Bool.not_eq_true] at hfull2
        rw [hfull2]
        exact Bool.false_ne_true
      rw [if_neg hno]

/-- Witness for C6 (amended) with the scenario buffer for the uniform
part and the full buffer `bW`, `n = 3`, `beta = 1` for the prioritized
part. -/
theorem c6_sample_guards_witness :
    ((1 : ℕ) ≤ 3) ∧ ((0 : ℚ) < 1) ∧ (bW.full = true) ∧ ((1 : ℕ) ≤ 1) ∧
    (PrioritizedReplayBuffer.size bW < 3) ∧
    ((ReplayBuffer.sample_multistep rb3 1 (1 : ℚ) 3 (fun _ => 0)
        = none ↔ ReplayBuffer.size rb3 < 3) ∧
     PrioritizedReplayBuffer.prioritizedPre bW 1 3 ∧
     PrioritizedReplayBuffer.sample_idxsP bW 1 3 [(1 : ℚ)/2] 2 = none) :=
  ⟨by decide, by norm_num, by decide, by decide, by decide,
   c6_sample_guards rb3 bW 1 3 2 1 1 (fun _ => 0) [(1 : ℚ)/2]
     (by decide) (by norm_num) (by decide) (by decide) (by decide)⟩

/-! Claim C7. -/

namespace PrioritizedReplayBuffer

variable {Obs Act : Type}

theorem maxp_applyOne (b : PrioritizedReplayBuffer Obs Act) (i : ℕ)
    (p : ℚ) : b.max_priority ≤ (applyOne b i p).max_priority :=
  le_max_left _ _

theorem maxp_goUpdate (l : List (ℕ × ℚ)) :
    ∀ b : PrioritizedReplayBuffer Obs Act,
      b.max_priority ≤ (goUpdate b l).1.max_priority := by
  induction l with
  | nil => intro b; exact le_rfl
  | cons e rest ih =>
    intro b
    rw [goUpdate]
    by_cases hv : 0 < e.2 ∧ e.1 < size b
    · rw [if_pos hv]
      exact le_trans (maxp_applyOne b e.1 e.2) (ih _)
    · rw [if_neg hv]

theorem maxp_update (b : PrioritizedReplayBuffer Obs Act) (idxs : List ℕ)
    (prios : List ℚ) :
    b.max_priority ≤ (update_priorities b idxs prios).1.max_priority := by
  unfold update_priorities
  by_cases h : idxs.length = prios.length
  · rw [if_pos h]
    exact maxp_goUpdate _ b
  · rw [if_neg h]

theorem maxp_applyOp (b : PrioritizedReplayBuffer Obs Act)
    (op : BufOp Obs Act) :
    b.max_priority ≤ (applyOp b op).max_priority := by
  cases op with
  | addOp t => exact le_rfl
  | upOp idxs prios => exact maxp_update b idxs prios

theorem maxp_applyOps (ops : List (BufOp Obs Act)) :
    ∀ b : PrioritizedReplayBuffer Obs Act,
      b.max_priority ≤ (applyOps b ops).max_priority := by
  induction ops with
  | nil => intro b; exact le_rfl
  | cons op rest ih =>
    intro b
    exact le_trans (maxp_applyOp b op) (ih (applyOp b op))

theorem goUpdate_mem (l : List (ℕ × ℚ)) :
    ∀ (b : PrioritizedReplayBuffer Obs Act) (e : ℕ × ℚ),
      (goUpdate b l).2 = true → e ∈ l →
        e.2 ≤ (goUpdate b l).1.max_priority := by
  induction l with
  | nil => intro b e _ he; exact absurd he (List.not_mem_nil e)
  | cons e0 rest ih =>
    intro b e hok he
    rw [goUpdate] at hok ⊢
    by_cases hv : 0 < e0.2 ∧ e0.1 < size b
    · rw [if_pos hv] at hok ⊢
      rcases List.mem_cons.mp he with heq | htail
      · subst heq
        exact le_trans (le_max_right _ _) (maxp_goUpdate rest _)
      · exact ih _ e hok htail
    · rw [if_neg hv] at hok
      exact absurd hok (by simp)

theorem mem_zip_right : ∀ (idxs : List ℕ) (prios : List ℚ),
    idxs.length = prios.length → ∀ p ∈ prios,
      ∃ i, (i, p) ∈ idxs.zip prios := by
  intro idxs
  induction idxs with
  | nil =>
    intro prios h p hp
    cases prios with
    | nil => exact absurd hp (List.not_mem_nil p)
    | cons q qs => exact absurd h (by simp)
  | cons i is ih =>
    intro prios h p hp
    cases prios with
    | nil => exact absurd hp (List.not_mem_nil p)
    | cons q qs =>
      rcases List.mem_cons.mp hp with heq | htail
      · refine ⟨i, ?_⟩
        rw [heq]
        exact List.mem_cons_self _ _
      · obtain ⟨i2, hi2⟩ := ih qs (by simpa using h) p htail
        exact ⟨i2, List.mem_cons_of_mem _ hi2⟩

theorem update_mem (b : PrioritizedReplayBuffer Obs Act) (idxs : List ℕ)
    (prios : List ℚ) (p : ℚ)
    (hok : (update_priorities b idxs prios).2 = true) (hp : p ∈ prios) :
    p ≤ (update_priorities b idxs prios).1.max_priority := by
  unfold update_priorities at hok ⊢
  by_cases h : idxs.length = prios.length
  · rw [if_pos h] at hok ⊢
    obtain ⟨i, hi⟩ := mem_zip_right idxs prios h p hp
    exact goUpdate_mem (idxs.zip prios) b (i, p) hok hi
  · rw [if_neg h] at hok
    exact absurd hok (by simp)

theorem applyOps_mem (ops : List (BufOp Obs Act)) :
    ∀ (b : PrioritizedReplayBuffer Obs Act) (idxs : List ℕ)
      (prios : List ℚ) (p : ℚ), opsOk b ops = true →
      BufOp.upOp idxs prios ∈ ops → p ∈ prios →
        p ≤ (applyOps b ops).max_priority := by
  induction ops with
  | nil => intro b _ _ _ _ hmem; exact absurd hmem (List.not_mem_nil _)
  | cons op rest ih =>
    intro b idxs prios p hok hmem hp
    rcases List.mem_cons.mp hmem with heq | htail
    · subst heq
      rw [opsOk, Bool.and_eq_true] at hok
      exact le_trans (update_mem b idxs prios p hok.1 hp)
        (maxp_applyOps rest _)
    · cases op with
      | addOp t =>
        rw [opsOk] at hok
        exact ih (b.addT t) idxs prios p hok htail hp
      | upOp i2 p2 =>
        rw [opsOk, Bool.and_eq_true] at hok
        exact ih _ idxs prios p hok.2 htail hp

end PrioritizedReplayBuffer

/-- Claim C7: over any sequence of `add` / successful `update_priorities`
calls, `max_priority` never decreases (both against the starting state
and against any prefix of the sequence), ends at least as large as every
priority supplied to any `update_priorities` call of the sequence, and
starts at its construction value 1.0. -/
theorem c7_max_priority {Obs Act : Type}
    (b : PrioritizedReplayBuffer Obs Act) (ops pre suf : List (BufOp Obs Act))
    (idxs : List ℕ) (prios : List ℚ) (p : ℚ) (C0 : ℕ) (f0 : ℚ → ℚ)
    (o0 : ℕ → Obs) (a0 : ℕ → Act) (r0 nd0 : ℕ → ℚ)
    (hok : PrioritizedReplayBuffer.opsOk b ops = true)
    (hsplit : ops = pre ++ suf)
    (hmem : BufOp.upOp idxs prios ∈ ops) (hp : p ∈ prios) :
    b.max_priority ≤
      (PrioritizedReplayBuffer.applyOps b ops).max_priority ∧
    (PrioritizedReplayBuffer.applyOps b pre).max_priority ≤
      (PrioritizedReplayBuffer.applyOps b ops).max_priority ∧
    p ≤ (PrioritizedReplayBuffer.applyOps b ops).max_priority ∧
    (PrioritizedReplayBuffer.mkPRB C0 f0 o0 a0 r0 nd0 :
      PrioritizedReplayBuffer Obs Act).max_priority = 1 := by
  refine ⟨PrioritizedReplayBuffer.maxp_applyOps ops b, ?_,
    PrioritizedReplayBuffer.applyOps_mem ops b idxs prios p hok hmem hp,
    rfl⟩
  have happ : PrioritizedReplayBuffer.applyOps b (pre ++ suf) =
      PrioritizedReplayBuffer.applyOps
        (PrioritizedReplayBuffer.applyOps b pre) suf := by
    unfold PrioritizedReplayBuffer.applyOps
    rw [List.foldl_append]
  rw [hsplit, happ]
  exact PrioritizedReplayBuffer.maxp_applyOps suf _

/-- A three-call sequence for the C7 witness: one `add`, then two
successful `update_priorities` calls with priorities 2 and 3. -/
def ops7 : List (BufOp ℕ ℕ) :=
  [BufOp.addOp ⟨1, 2, 1, 3, false⟩, BufOp.upOp [0] [2], BufOp.upOp [1] [3]]

/-- Witness for C7: the sequence `ops7` run from `oneAdd`, with the
prefix split after the first call, tracking the supplied priority 2. -/
theorem c7_max_priority_witness :
    (PrioritizedReplayBuffer.opsOk oneAdd ops7 = true) ∧
    (ops7 = [BufOp.addOp ⟨1, 2, 1, 3, false⟩] ++
      [BufOp.upOp [0] [2], BufOp.upOp [1] [3]]) ∧
    (BufOp.upOp [0] [2] ∈ ops7) ∧ ((2 : ℚ) ∈ [(2 : ℚ)]) ∧
    (oneAdd.max_priority ≤
      (PrioritizedReplayBuffer.applyOps oneAdd ops7).max_priority ∧
     (PrioritizedReplayBuffer.applyOps oneAdd
        [BufOp.addOp ⟨1, 2, 1, 3, false⟩]).max_priority ≤
      (PrioritizedReplayBuffer.applyOps oneAdd ops7).max_priority ∧
     (2 : ℚ) ≤ (PrioritizedReplayBuffer.applyOps oneAdd ops7).max_priority ∧
     (PrioritizedReplayBuffer.mkPRB 2 id (fun _ => 0) (fun _ => 0)
        (fun _ => 0) (fun _ => 0) :
        PrioritizedReplayBuffer ℕ ℕ).max_priority = 1) :=
  ⟨by decide, by decide, by decide, by decide,
   c7_max_priority oneAdd ops7 [BufOp.addOp ⟨1, 2, 1, 3, false⟩]
     [BufOp.upOp [0] [2], BufOp.upOp [1] [3]] [0] [2] 2 2 id
     (fun _ => 0) (fun _ => 0) (fun _ => 0) (fun _ => 0)
     (by decide) (by decide) (by decide) (by decide)⟩

/-! Claim C8. -/

namespace PrioritizedReplayBuffer

variable {Obs Act : Type}

/-- The entry loop of `update_priorities` applies exactly the longest
valid prefix of the zipped entries and reports whether every entry was
valid: partial updates before the first offending entry persist. -/
theorem goUpdate_eq (l : List (ℕ × ℚ)) :
    ∀ b : PrioritizedReplayBuffer Obs Act,
      goUpdate b l =
        (applyList b (l.takeWhile (validEntry b)), l.all (validEntry b)) := by
  induction l with
  | nil => intro b; rfl
  | cons e rest ih =>
    intro b
    rw [goUpdate]
    by_cases hv : 0 < e.2 ∧ e.1 < size b
    · have hvb : validEntry b e = true := by
        unfold validEntry
        rw [Bool.and_eq_true]
        exact ⟨decide_eq_true hv.1, decide_eq_true hv.2⟩
      rw [if_pos hv, ih (applyOne b e.1 e.2)]
      have hsame : validEntry (applyOne b e.1 e.2) = validEntry b := rfl
      rw [hsame, List.takeWhile_cons_of_pos hvb, List.all_cons, hvb,
        Bool.true_and]
      rfl
    · have hvb : ¬ validEntry b e = true := by
        intro hcontra
        apply hv
        unfold validEntry at hcontra
        rw [Bool.and_eq_true] at hcontra
        exact ⟨of_decide_eq_true hcontra.1, of_decide_eq_true hcontra.2⟩
      have hvb2 : validEntry b e = false := Bool.eq_false_iff.mpr hvb
      rw [if_neg hv, List.takeWhile_cons_of_neg hvb, List.all_cons, hvb2,
        Bool.false_and]
      rfl

end PrioritizedReplayBuffer

/-- Counterexample to claim C8 as stated: `update_priorities` with
indices `[0, 0]` and priorities `[3, -1]` on the one-element buffer
`oneAdd` fails (the second priority is non-positive), yet the state is
not the pre-call state: the first entry was already applied, leaving
`max_priority = 3` (it was 1) and sum-tree leaf 0 at 3 (it was 0). -/
theorem c8_counterexample :
    (PrioritizedReplayBuffer.update_priorities oneAdd [0, 0] [3, -1]).2
      = false ∧
    oneAdd.max_priority = 1 ∧
    (PrioritizedReplayBuffer.update_priorities oneAdd [0, 0]
      [3, -1]).1.max_priority = 3 ∧
    (PrioritizedReplayBuffer.update_priorities oneAdd [0, 0]
      [3, -1]).1.sumLeaves 0 = 3 ∧
    oneAdd.sumLeaves 0 = 0 := by
  decide

/-- Claim C8, amended: `update_priorities(idxs, prios)` fails exactly
when the lengths differ, or some zipped entry has priority ≤ 0 or index
outside `[0, size())`; on a length mismatch no state changes, but on a
failing entry the writes of all entries preceding the first offending
one persist — the call applies the longest valid prefix of the entries
and is not atomic. -/
theorem c8_update_priorities {Obs Act : Type}
    (b : PrioritizedReplayBuffer Obs Act) (idxs : List ℕ)
    (prios : List ℚ) :
    PrioritizedReplayBuffer.update_priorities b idxs prios =
      (if idxs.length = prios.length
       then (PrioritizedReplayBuffer.applyList b
               ((idxs.zip prios).takeWhile
                 (PrioritizedReplayBuffer.validEntry b)),
             (idxs.zip prios).all (PrioritizedReplayBuffer.validEntry b))
       else (b, false)) := by
  unfold PrioritizedReplayBuffer.update_priorities
  by_cases h : idxs.length = prios.length
  · rw [if_pos h, if_pos h, PrioritizedReplayBuffer.goUpdate_eq]
  · rw [if_neg h, if_neg h]

/-! Claim C9. -/

/-- Claim C9: sampling is deterministic in the buffer state and the
random stream — two runs of the uniform or prioritized
`sample_multistep` from equal buffer states with equal random streams
(equal seeds) return equal batches, weights and index arrays. -/
theorem c9_determinism {Obs Act : Type} (b1 b2 : ReplayBuffer Obs Act)
    (p1 p2 : PrioritizedReplayBuffer Obs Act) (f : ℚ → ℚ)
    (bs n fuel : ℕ) (d β : ℚ) (us1 us2 : ℕ → ℕ) (s1 s2 : List ℚ)
    (hb : b1 = b2) (hus : us1 = us2) (hp : p1 = p2) (hs : s1 = s2) :
    ReplayBuffer.sample_multistep b1 bs d n us1 =
      ReplayBuffer.sample_multistep b2 bs d n us2 ∧
    PrioritizedReplayBuffer.sample_multistepP p1 f bs β d n s1 fuel =
      PrioritizedReplayBuffer.sample_multistepP p2 f bs β d n s2 fuel := by
  subst hb
  subst hus
  subst hp
  subst hs
  exact ⟨rfl, rfl⟩

/-- Witness for C9 at the concrete buffers `rb3` and `bW`. -/
theorem c9_determinism_witness :
    (rb3 = rb3) ∧ ((fun _ : ℕ => (0 : ℕ)) = (fun _ : ℕ => (0 : ℕ))) ∧
    (bW = bW) ∧ ([(1 : ℚ)/2] = [(1 : ℚ)/2]) ∧
    (ReplayBuffer.sample_multistep rb3 1 (1 : ℚ) 1 (fun _ => 0) =
      ReplayBuffer.sample_multistep rb3 1 (1 : ℚ) 1 (fun _ => 0) ∧
     PrioritizedReplayBuffer.sample_multistepP bW (fun x => x⁻¹) 1 1 1 1
        [(1 : ℚ)/2] 1 =
      PrioritizedReplayBuffer.sample_multistepP bW (fun x => x⁻¹) 1 1 1 1
        [(1 : ℚ)/2] 1) :=
  ⟨rfl, rfl, rfl, rfl,
   c9_determinism rb3 rb3 bW bW (fun x => x⁻¹) 1 1 1 1 1
     (fun _ => 0) (fun _ => 0) [(1 : ℚ)/2] [(1 : ℚ)/2] rfl rfl rfl rfl⟩

/-! Claim C10. -/

/-- Claim C10: `fetch` and both `sample_multistep` variants are pure
reads — in state-passing form they return the receiver unchanged, so the
five column arrays, cursor, full flag, both trees' leaves and
`max_priority` after the call equal those before it. -/
theorem c10_frame {Obs Act : Type} (b : ReplayBuffer Obs Act)
    (p : PrioritizedReplayBuffer Obs Act) (f : ℚ → ℚ) (idxs : List ℕ)
    (bs n fuel : ℕ) (d β : ℚ) (us : ℕ → ℕ) (stream : List ℚ) :
    (ReplayBuffer.fetchSt b idxs d n).2 = b ∧
    (ReplayBuffer.sample_multistepSt b bs d n us).2 = b ∧
    (PrioritizedReplayBuffer.sample_multistepPSt p f bs β d n stream
      fuel).2 = p ∧
    (ReplayBuffer.fetchSt b idxs d n).2.obses = b.obses ∧
    (ReplayBuffer.fetchSt b idxs d n).2.actions = b.actions ∧
    (ReplayBuffer.fetchSt b idxs d n).2.rewards = b.rewards ∧
    (ReplayBuffer.fetchSt b idxs d n).2.next_obses = b.next_obses ∧
    (ReplayBuffer.fetchSt b idxs d n).2.not_dones = b.not_dones ∧
    (ReplayBuffer.fetchSt b idxs d n).2.idx = b.idx ∧
    (ReplayBuffer.fetchSt b idxs d n).2.full = b.full ∧
    (PrioritizedReplayBuffer.sample_multistepPSt p f bs β d n stream
      fuel).2.sumLeaves = p.sumLeaves ∧
    (PrioritizedReplayBuffer.sample_multistepPSt p f bs β d n stream
      fuel).2.minLeaves = p.minLeaves ∧
    (PrioritizedReplayBuffer.sample_multistepPSt p f bs β d n stream
      fuel).2.max_priority = p.max_priority :=
  ⟨rfl, rfl, rfl, rfl, rfl, rfl, rfl, rfl, rfl, rfl, rfl, rfl, rfl⟩
